import Mathlib

/-!
Verification of the paper-trading simulator (src/trade.py).

The embedding models the session state of the Streamlit app: the portfolio
dictionary (an insertion-ordered association list from ticker to share
count, as a Python dict of int quantities), the cash balance, the
transaction history and the performance samples.  Prices and cash are
rationals; quantities are integers (the quantity widget enforces integer
steps).  The live price feed is modelled as a function from ticker to
price; where feed failure matters (the `fetch_stock_price` helper raises
on an empty history) the feed is modelled as a function from ticker to the
Close column of the 1d history and a missing price is `Option.none`.
-/

/-- The eight tradable tickers (trade.py line 10). -/
def available_stocks : List String :=
  ["AAPL", "GOOGL", "MSFT", "AMZN", "TSLA", "META", "NFLX", "NVDA"]

/-- Initial virtual balance (trade.py line 13). -/
def initial_balance : ℚ := 1000

/-- Order side: the Buy / Sell buttons of the trade tab. -/
inductive Side
| buy
| sell
deriving DecidableEq

/-- Failure kinds of an order.  The buy branch can only fail for lack of
cash and the sell branch only for lack of shares (trade.py lines 143-151). -/
inductive TradeError
| insufficientFunds
| insufficientShares
deriving DecidableEq

/-- One record of `st.session_state.transaction_history` (trade.py lines
154-161); the wall-clock Date field is dropped. -/
structure Transaction where
  stock : String
  side : Side
  quantity : ℤ
  price : ℚ
  total : ℚ
deriving DecidableEq

/-- The session state initialised by `initialize_session_state` (trade.py
lines 16-26); the watchlist plays no role in the claims.  A performance
sample keeps only its Total Value field. -/
structure SessionState where
  portfolio : List (String × ℤ)
  cash_balance : ℚ
  transaction_history : List Transaction
  performance : List ℚ
deriving DecidableEq

/-- Initial session state: every available stock mapped to 0 shares, cash
at the initial balance, empty logs (trade.py lines 16-26). -/
def initSessionState : SessionState :=
  { portfolio := available_stocks.map (fun stock => (stock, 0))
    cash_balance := initial_balance
    transaction_history := []
    performance := [] }

/-- Dictionary lookup `portfolio[ticker]`.  The app only looks up tickers
chosen from `available_stocks`, which are always present, so the `none`
branch (a Python KeyError) is unreachable in context. -/
def portfolioGet (p : List (String × ℤ)) (t : String) : ℤ :=
  match p.find? (fun e => e.1 == t) with
  | some e => e.2
  | none => 0

/-- Dictionary update `portfolio[ticker] += q` on a present key: every
entry whose key matches is incremented, the key set is untouched. -/
def portfolioAdd (p : List (String × ℤ)) (t : String) (q : ℤ) : List (String × ℤ) :=
  p.map (fun e => if e.1 == t then (e.1, e.2 + q) else e)

/-- Portfolio valuation of trade.py line 164 (and line 113-114): the sum
over all available stocks of shares times the current feed price, plus the
cash balance. -/
def total_value (p : List (String × ℤ)) (cash : ℚ) (feed : String → ℚ) : ℚ :=
  (available_stocks.map (fun stock => (portfolioGet p stock : ℚ) * feed stock)).sum + cash

/-- Common tail of a successful trade (trade.py lines 153-168): append the
transaction record, then append a performance sample valued with the
current feed prices over the post-trade portfolio. -/
def recordTrade (s : SessionState) (transaction_type : Side) (ticker : String)
    (quantity : ℤ) (price : ℚ) (feed : String → ℚ) : SessionState :=
  { s with
    transaction_history := s.transaction_history ++
      [{ stock := ticker, side := transaction_type, quantity := quantity,
         price := price, total := (quantity : ℚ) * price }]
    performance := s.performance ++ [total_value s.portfolio s.cash_balance feed] }

/-- The buy/sell branch of the trade tab (trade.py lines 139-168): a buy
succeeds when the cash balance covers `cost = quantity * price`, a sell
when the held quantity covers `quantity`; otherwise the handler reports an
error and returns without touching the state. -/
def executeOrder (s : SessionState) (side : Side) (ticker : String)
    (quantity : ℤ) (price : ℚ) (feed : String → ℚ) : Except TradeError SessionState :=
  match side with
  | Side.buy =>
      if (quantity : ℚ) * price ≤ s.cash_balance then
        Except.ok (recordTrade
          { s with portfolio := portfolioAdd s.portfolio ticker quantity
                   cash_balance := s.cash_balance - (quantity : ℚ) * price }
          Side.buy ticker quantity price feed)
      else Except.error TradeError.insufficientFunds
  | Side.sell =>
      if quantity ≤ portfolioGet s.portfolio ticker then
        Except.ok (recordTrade
          { s with portfolio := portfolioAdd s.portfolio ticker (-quantity)
                   cash_balance := s.cash_balance + (quantity : ℚ) * price }
          Side.sell ticker quantity price feed)
      else Except.error TradeError.insufficientShares

/-- The Load Money tab (trade.py lines 245-250): a transaction id shorter
than 8 characters never reaches the load button; otherwise the entered
amount (the widget clamps it to [20,50]) is credited squared. -/
def load_money (s : SessionState) (transaction_id : String) (amount_to_load : ℤ) : SessionState :=
  if 8 ≤ transaction_id.length then
    { s with cash_balance := s.cash_balance + ((amount_to_load * amount_to_load : ℤ) : ℚ) }
  else s

/-- The state-mutating user actions of the app. -/
inductive Op
| trade (side : Side) (ticker : String) (quantity : ℤ) (price : ℚ) (feed : String → ℚ)
| loadMoney (transaction_id : String) (amount : ℤ)

/-- Effect of one user action on the session state: a rejected trade
leaves the state untouched. -/
def applyOp (s : SessionState) : Op → SessionState
  | Op.trade side ticker quantity price feed =>
      match executeOrder s side ticker quantity price feed with
      | Except.ok s2 => s2
      | Except.error _ => s
  | Op.loadMoney transaction_id amount => load_money s transaction_id amount

/-- Effect of a sequence of user actions. -/
def applyOps (s : SessionState) (ops : List Op) : SessionState :=
  ops.foldl applyOp s

/-- Preconditions the trade widgets enforce: quantity has min_value 1 and
a quote is a non-negative number; loading money is unconstrained here. -/
def ValidOp : Op → Prop
  | Op.trade _ _ quantity price _ => 0 < quantity ∧ 0 ≤ price
  | Op.loadMoney _ _ => True

instance instDecidableValidOp : (op : Op) → Decidable (ValidOp op)
  | Op.trade _ _ quantity price _ => inferInstanceAs (Decidable (0 < quantity ∧ 0 ≤ price))
  | Op.loadMoney _ _ => inferInstanceAs (Decidable True)

/-- The non-negativity invariant of the spec: cash never negative and no
short positions. -/
def StateNonneg (s : SessionState) : Prop :=
  0 ≤ s.cash_balance ∧ ∀ e ∈ s.portfolio, 0 ≤ e.2

/-! Helper lemmas about the portfolio dictionary. -/

theorem portfolioGet_cons_pos (a : String × ℤ) (p : List (String × ℤ)) (t : String)
    (h : a.1 = t) : portfolioGet (a :: p) t = a.2 := by
  unfold portfolioGet
  rw [List.find?_cons_of_pos _ (by simpa using h)]

theorem portfolioGet_cons_neg (a : String × ℤ) (p : List (String × ℤ)) (t : String)
    (h : a.1 ≠ t) : portfolioGet (a :: p) t = portfolioGet p t := by
  unfold portfolioGet
  rw [List.find?_cons_of_neg _ (by simpa using h)]

theorem portfolioAdd_cons (a : String × ℤ) (p : List (String × ℤ)) (t : String) (q : ℤ) :
    portfolioAdd (a :: p) t q =
      (if a.1 == t then (a.1, a.2 + q) else a) :: portfolioAdd p t q := by
  simp [portfolioAdd]

theorem portfolioAdd_keys (p : List (String × ℤ)) (t : String) (q : ℤ) :
    (portfolioAdd p t q).map Prod.fst = p.map Prod.fst := by
  unfold portfolioAdd
  rw [List.map_map]
  refine List.map_congr_left ?_
  intro e _
  simp only [Function.comp_apply]
  split <;> rfl

theorem portfolioGet_portfolioAdd (p : List (String × ℤ)) (t : String) (q : ℤ)
    (hkey : (p.find? (fun e => e.1 == t)).isSome) :
    portfolioGet (portfolioAdd p t q) t = portfolioGet p t + q := by
  induction p with
  | nil => simp [List.find?] at hkey
  | cons a p ih =>
    rw [portfolioAdd_cons]
    by_cases h : a.1 = t
    · rw [if_pos (by simpa using h)]
      rw [portfolioGet_cons_pos (a.1, a.2 + q) (portfolioAdd p t q) t h,
        portfolioGet_cons_pos a p t h]
    · rw [if_neg (by simpa using h)]
      rw [portfolioGet_cons_neg _ _ _ h, portfolioGet_cons_neg _ _ _ h]
      rw [List.find?_cons_of_neg _ (by simpa using h)] at hkey
      exact ih hkey

theorem portfolioGet_of_mem (p : List (String × ℤ)) (t : String) (v : ℤ)
    (hnd : (p.map Prod.fst).Nodup) (hm : (t, v) ∈ p) : portfolioGet p t = v := by
  induction p with
  | nil => simp at hm
  | cons a p ih =>
    rw [List.map_cons, List.nodup_cons] at hnd
    rcases List.mem_cons.mp hm with h | h
    · rw [← h]
      exact portfolioGet_cons_pos _ _ _ rfl
    · have ht : t ∈ p.map Prod.fst := List.mem_map.mpr ⟨(t, v), h, rfl⟩
      have hne : a.1 ≠ t := fun hEq => hnd.1 (hEq ▸ ht)
      rw [portfolioGet_cons_neg _ _ _ hne]
      exact ih hnd.2 h

theorem mem_portfolioAdd (p : List (String × ℤ)) (t : String) (q : ℤ) (e2 : String × ℤ)
    (hm : e2 ∈ portfolioAdd p t q) :
    ∃ e ∈ p, e2 = if e.1 == t then (e.1, e.2 + q) else e := by
  rcases List.mem_map.mp hm with ⟨e, he, hEq⟩
  exact ⟨e, he, hEq.symm⟩

/-- C1: a buy with a known ticker, positive integer quantity and
non-negative price succeeds if and only if the cash balance covers
quantity times price; on success the cash balance drops by exactly that
cost and the position for the ticker grows by exactly the quantity;
otherwise the order fails with InsufficientFunds and the state is left
untouched. -/
theorem buy_contract (s : SessionState) (ticker : String) (quantity : ℤ) (price : ℚ)
    (feed : String → ℚ) (hq : 0 < quantity) (hpr : 0 ≤ price)
    (hkey : (s.portfolio.find? (fun e => e.1 == ticker)).isSome) :
    ((∃ s2, executeOrder s Side.buy ticker quantity price feed = Except.ok s2) ↔
      (quantity : ℚ) * price ≤ s.cash_balance)
  ∧ ((quantity : ℚ) * price ≤ s.cash_balance →
      ∃ s2, executeOrder s Side.buy ticker quantity price feed = Except.ok s2 ∧
        s2.cash_balance = s.cash_balance - (quantity : ℚ) * price ∧
        portfolioGet s2.portfolio ticker = portfolioGet s.portfolio ticker + quantity)
  ∧ (¬ (quantity : ℚ) * price ≤ s.cash_balance →
      executeOrder s Side.buy ticker quantity price feed =
        Except.error TradeError.insufficientFunds ∧
      applyOp s (Op.trade Side.buy ticker quantity price feed) = s) := by
  have hred : executeOrder s Side.buy ticker quantity price feed =
      if (quantity : ℚ) * price ≤ s.cash_balance then
        Except.ok (recordTrade
          { s with portfolio := portfolioAdd s.portfolio ticker quantity
                   cash_balance := s.cash_balance - (quantity : ℚ) * price }
          Side.buy ticker quantity price feed)
      else Except.error TradeError.insufficientFunds := rfl
  by_cases hc : (quantity : ℚ) * price ≤ s.cash_balance
  · rw [hred, if_pos hc]
    refine ⟨⟨fun _ => hc, fun _ => ⟨_, rfl⟩⟩, fun _ => ⟨_, rfl, rfl, ?_⟩, fun hn => absurd hc hn⟩
    exact portfolioGet_portfolioAdd s.portfolio ticker quantity hkey
  · rw [hred, if_neg hc]
    refine ⟨⟨fun h2 => ?_, fun h2 => absurd h2 hc⟩, fun h2 => absurd h2 hc, fun _ => ⟨rfl, ?_⟩⟩
    · rcases h2 with ⟨s2, hs2⟩
      simp at hs2
    · simp [applyOp, hred, hc]

/-- C1 witness: from the initial cash balance of 1000, buying 2 shares of
AAPL at price 100 succeeds and yields cash 800 and a position of 2. -/
theorem buy_contract_scenario :
    ((0 : ℤ) < 2 ∧ (0 : ℚ) ≤ 100 ∧ (2 : ℚ) * 100 ≤ initSessionState.cash_balance) ∧
    ∃ s2, executeOrder initSessionState Side.buy ("AAPL") 2 100 (fun _ => 100) = Except.ok s2 ∧
      s2.cash_balance = 800 ∧ portfolioGet s2.portfolio ("AAPL") = 2 := by
  have h := (buy_contract initSessionState ("AAPL") 2 100 (fun _ => 100) (by decide)
    (by norm_num) (by decide)).2.1 (by norm_num [initSessionState, initial_balance])
  rcases h with ⟨s2, hok, hcash, hpos⟩
  refine ⟨⟨by decide, by norm_num, by norm_num [initSessionState, initial_balance]⟩,
    s2, hok, ?_, ?_⟩
  · rw [hcash]
    norm_num [initSessionState, initial_balance]
  · rw [hpos]
    have h0 : portfolioGet initSessionState.portfolio ("AAPL") = 0 := rfl
    rw [h0]
    norm_num

/-- C2: a sell with a known ticker, positive integer quantity and
non-negative price succeeds if and only if the held position covers the
quantity; on success the cash balance grows by quantity times price and
the position shrinks by exactly the quantity; otherwise the order fails
with InsufficientShares and the state is left bit-for-bit unchanged. -/
theorem sell_contract (s : SessionState) (ticker : String) (quantity : ℤ) (price : ℚ)
    (feed : String → ℚ) (hq : 0 < quantity) (hpr : 0 ≤ price)
    (hkey : (s.portfolio.find? (fun e => e.1 == ticker)).isSome) :
    ((∃ s2, executeOrder s Side.sell ticker quantity price feed = Except.ok s2) ↔
      quantity ≤ portfolioGet s.portfolio ticker)
  ∧ (quantity ≤ portfolioGet s.portfolio ticker →
      ∃ s2, executeOrder s Side.sell ticker quantity price feed = Except.ok s2 ∧
        s2.cash_balance = s.cash_balance + (quantity : ℚ) * price ∧
        portfolioGet s2.portfolio ticker = portfolioGet s.portfolio ticker - quantity)
  ∧ (¬ quantity ≤ portfolioGet s.portfolio ticker →
      executeOrder s Side.sell ticker quantity price feed =
        Except.error TradeError.insufficientShares ∧
      applyOp s (Op.trade Side.sell ticker quantity price feed) = s) := by
  have hred : executeOrder s Side.sell ticker quantity price feed =
      if quantity ≤ portfolioGet s.portfolio ticker then
        Except.ok (recordTrade
          { s with portfolio := portfolioAdd s.portfolio ticker (-quantity)
                   cash_balance := s.cash_balance + (quantity : ℚ) * price }
          Side.sell ticker quantity price feed)
      else Except.error TradeError.insufficientShares := rfl
  by_cases hc : quantity ≤ portfolioGet s.portfolio ticker
  · rw [hred, if_pos hc]
    refine ⟨⟨fun _ => hc, fun _ => ⟨_, rfl⟩⟩, fun _ => ⟨_, rfl, rfl, ?_⟩, fun hn => absurd hc hn⟩
    show portfolioGet (portfolioAdd s.portfolio ticker (-quantity)) ticker =
      portfolioGet s.portfolio ticker - quantity
    rw [portfolioGet_portfolioAdd s.portfolio ticker (-quantity) hkey]
    ring
  · rw [hred, if_neg hc]
    refine ⟨⟨fun h2 => ?_, fun h2 => absurd h2 hc⟩, fun h2 => absurd h2 hc, fun _ => ⟨rfl, ?_⟩⟩
    · rcases h2 with ⟨s2, hs2⟩
      simp at hs2
    · simp [applyOp, hred, hc]

/-- C2 witness: holding 2 shares of AAPL, selling 3 is rejected with
InsufficientShares and the state, including the transaction log length,
is unchanged. -/
theorem sell_contract_scenario :
    ((0 : ℤ) < 3 ∧ (0 : ℚ) ≤ 100 ∧
      ¬ (3 : ℤ) ≤ portfolioGet
        [("AAPL", 2), ("GOOGL", 0), ("MSFT", 0), ("AMZN", 0),
         ("TSLA", 0), ("META", 0), ("NFLX", 0), ("NVDA", 0)] ("AAPL")) ∧
    executeOrder
        { portfolio := [("AAPL", 2), ("GOOGL", 0), ("MSFT", 0), ("AMZN", 0),
            ("TSLA", 0), ("META", 0), ("NFLX", 0), ("NVDA", 0)],
          cash_balance := 800, transaction_history := [], performance := [] }
        Side.sell ("AAPL") 3 100 (fun _ => 100) =
      Except.error TradeError.insufficientShares ∧
    applyOp
        { portfolio := [("AAPL", 2), ("GOOGL", 0), ("MSFT", 0), ("AMZN", 0),
            ("TSLA", 0), ("META", 0), ("NFLX", 0), ("NVDA", 0)],
          cash_balance := 800, transaction_history := [], performance := [] }
        (Op.trade Side.sell ("AAPL") 3 100 (fun _ => 100)) =
      { portfolio := [("AAPL", 2), ("GOOGL", 0), ("MSFT", 0), ("AMZN", 0),
          ("TSLA", 0), ("META", 0), ("NFLX", 0), ("NVDA", 0)],
        cash_balance := 800, transaction_history := [], performance := [] } := by
  have h := (sell_contract
    { portfolio := [("AAPL", 2), ("GOOGL", 0), ("MSFT", 0), ("AMZN", 0),
        ("TSLA", 0), ("META", 0), ("NFLX", 0), ("NVDA", 0)],
      cash_balance := 800, transaction_history := [], performance := [] }
    ("AAPL") 3 100 (fun _ => 100) (by decide) (by norm_num) (by decide)).2.2 (by decide)
  exact ⟨⟨by decide, by norm_num, by decide⟩, h.1, h.2⟩

/-! Reachability invariants. -/

/-- Induction invariant: non-negative cash, duplicate-free ticker keys and
non-negative quantities. -/
def LedgerInv (s : SessionState) : Prop :=
  0 ≤ s.cash_balance ∧ (s.portfolio.map Prod.fst).Nodup ∧ ∀ e ∈ s.portfolio, 0 ≤ e.2

theorem ledgerInv_init : LedgerInv initSessionState := by
  refine ⟨by norm_num [initSessionState, initial_balance], by decide, ?_⟩
  intro e he
  have : e.2 = 0 := by
    rcases List.mem_map.mp he with ⟨stock, _, hEq⟩
    rw [← hEq]
  rw [this]

theorem ledgerInv_applyOp (s : SessionState) (op : Op) (hv : ValidOp op)
    (h : LedgerInv s) : LedgerInv (applyOp s op) := by
  obtain ⟨hcash, hnd, hpos⟩ := h
  cases op with
  | loadMoney transaction_id amount =>
    show LedgerInv (load_money s transaction_id amount)
    unfold load_money
    split
    · refine ⟨?_, hnd, hpos⟩
      have : (0 : ℚ) ≤ ((amount * amount : ℤ) : ℚ) := by
        exact_mod_cast mul_self_nonneg amount
      simpa using add_nonneg hcash this
    · exact ⟨hcash, hnd, hpos⟩
  | trade side ticker quantity price feed =>
    obtain ⟨hq, hpr⟩ := hv
    cases side with
    | buy =>
      show LedgerInv (applyOp s (Op.trade Side.buy ticker quantity price feed))
      by_cases hc : (quantity : ℚ) * price ≤ s.cash_balance
      · have hred : applyOp s (Op.trade Side.buy ticker quantity price feed) =
            recordTrade
              { s with portfolio := portfolioAdd s.portfolio ticker quantity
                       cash_balance := s.cash_balance - (quantity : ℚ) * price }
              Side.buy ticker quantity price feed := by
          simp [applyOp, executeOrder, hc]
        rw [hred]
        refine ⟨by simpa [recordTrade] using sub_nonneg.mpr hc, ?_, ?_⟩
        · show ((portfolioAdd s.portfolio ticker quantity).map Prod.fst).Nodup
          rw [portfolioAdd_keys]
          exact hnd
        · intro e2 he2
          rcases mem_portfolioAdd s.portfolio ticker quantity e2 he2 with ⟨e, he, hEq⟩
          rw [hEq]
          split
          · exact add_nonneg (hpos e he) (le_of_lt hq)
          · exact hpos e he
      · have hred : applyOp s (Op.trade Side.buy ticker quantity price feed) = s := by
          simp [applyOp, executeOrder, hc]
        rw [hred]
        exact ⟨hcash, hnd, hpos⟩
    | sell =>
      show LedgerInv (applyOp s (Op.trade Side.sell ticker quantity price feed))
      by_cases hc : quantity ≤ portfolioGet s.portfolio ticker
      · have hred : applyOp s (Op.trade Side.sell ticker quantity price feed) =
            recordTrade
              { s with portfolio := portfolioAdd s.portfolio ticker (-quantity)
                       cash_balance := s.cash_balance + (quantity : ℚ) * price }
              Side.sell ticker quantity price feed := by
          simp [applyOp, executeOrder, hc]
        rw [hred]
        have hcost : (0 : ℚ) ≤ (quantity : ℚ) * price :=
          mul_nonneg (by exact_mod_cast le_of_lt hq) hpr
        refine ⟨by simpa [recordTrade] using add_nonneg hcash hcost, ?_, ?_⟩
        · show ((portfolioAdd s.portfolio ticker (-quantity)).map Prod.fst).Nodup
          rw [portfolioAdd_keys]
          exact hnd
        · intro e2 he2
          rcases mem_portfolioAdd s.portfolio ticker (-quantity) e2 he2 with ⟨e, he, hEq⟩
          rw [hEq]
          split
          · rename_i hbeq
            have hkey : e.1 = ticker := by simpa using hbeq
            have hval : portfolioGet s.portfolio ticker = e.2 := by
              have : (ticker, e.2) ∈ s.portfolio := by
                have : e = (ticker, e.2) := by
                  rw [← hkey]
                exact this ▸ he
              exact portfolioGet_of_mem s.portfolio ticker e.2 hnd this
            have : quantity ≤ e.2 := hval ▸ hc
            simpa using sub_nonneg.mpr this
          · exact hpos e he
      · have hred : applyOp s (Op.trade Side.sell ticker quantity price feed) = s := by
          simp [applyOp, executeOrder, hc]
        rw [hred]
        exact ⟨hcash, hnd, hpos⟩

theorem ledgerInv_applyOps (s : SessionState) (ops : List Op)
    (hv : ∀ op ∈ ops, ValidOp op) (h : LedgerInv s) : LedgerInv (applyOps s ops) := by
  induction ops generalizing s with
  | nil => exact h
  | cons op ops ih =>
    exact ih (applyOp s op) (fun o ho => hv o (List.mem_cons_of_mem op ho))
      (ledgerInv_applyOp s op (hv op (List.mem_cons_self op ops)) h)

/-- C3: starting from the initial state, any sequence of buy orders, sell
orders and wallet top-ups (with positive integer quantities and
non-negative prices) keeps the cash balance and every position quantity
non-negative. -/
theorem nonneg_invariant (ops : List Op) (hv : ∀ op ∈ ops, ValidOp op) :
    StateNonneg (applyOps initSessionState ops) := by
  have h := ledgerInv_applyOps initSessionState ops hv ledgerInv_init
  exact ⟨h.1, h.2.2⟩

/-- C3 witness: a concrete valid sequence (buy 2 AAPL at 100, top up with
an 8-character id, sell 1 AAPL at 50) ends in a state with non-negative
cash and non-negative positions. -/
theorem nonneg_invariant_scenario :
    (∀ op ∈ [Op.trade Side.buy ("AAPL") 2 100 (fun _ => 100),
        Op.loadMoney ("12345678") 20,
        Op.trade Side.sell ("AAPL") 1 50 (fun _ => 50)], ValidOp op) ∧
    StateNonneg (applyOps initSessionState
      [Op.trade Side.buy ("AAPL") 2 100 (fun _ => 100),
       Op.loadMoney ("12345678") 20,
       Op.trade Side.sell ("AAPL") 1 50 (fun _ => 50)]) := by
  have hv : ∀ op ∈ [Op.trade Side.buy ("AAPL") 2 100 (fun _ => 100),
      Op.loadMoney ("12345678") 20,
      Op.trade Side.sell ("AAPL") 1 50 (fun _ => 50)], ValidOp op := by
    intro op hop
    rcases List.mem_cons.mp hop with h | hop
    · rw [h]
      exact ⟨by norm_num, by norm_num⟩
    rcases List.mem_cons.mp hop with h | hop
    · rw [h]
      trivial
    rcases List.mem_cons.mp hop with h | hop
    · rw [h]
      exact ⟨by norm_num, by norm_num⟩
    · simp at hop
  exact ⟨hv, nonneg_invariant _ hv⟩

/-- Key-set preservation for a single user action: no operation of the app
adds or removes a portfolio key. -/
theorem applyOp_keys (s : SessionState) (op : Op) :
    ((applyOp s op).portfolio).map Prod.fst = s.portfolio.map Prod.fst := by
  cases op with
  | loadMoney transaction_id amount =>
    show ((load_money s transaction_id amount).portfolio).map Prod.fst = _
    unfold load_money
    split <;> rfl
  | trade side ticker quantity price feed =>
    cases side with
    | buy =>
      by_cases hc : (quantity : ℚ) * price ≤ s.cash_balance
      · have hred : applyOp s (Op.trade Side.buy ticker quantity price feed) =
            recordTrade
              { s with portfolio := portfolioAdd s.portfolio ticker quantity
                       cash_balance := s.cash_balance - (quantity : ℚ) * price }
              Side.buy ticker quantity price feed := by
          simp [applyOp, executeOrder, hc]
        rw [hred]
        exact portfolioAdd_keys s.portfolio ticker quantity
      · have hred : applyOp s (Op.trade Side.buy ticker quantity price feed) = s := by
          simp [applyOp, executeOrder, hc]
        rw [hred]
    | sell =>
      by_cases hc : quantity ≤ portfolioGet s.portfolio ticker
      · have hred : applyOp s (Op.trade Side.sell ticker quantity price feed) =
            recordTrade
              { s with portfolio := portfolioAdd s.portfolio ticker (-quantity)
                       cash_balance := s.cash_balance + (quantity : ℚ) * price }
              Side.sell ticker quantity price feed := by
          simp [applyOp, executeOrder, hc]
        rw [hred]
        exact portfolioAdd_keys s.portfolio ticker (-quantity)
      · have hred : applyOp s (Op.trade Side.sell ticker quantity price feed) = s := by
          simp [applyOp, executeOrder, hc]
        rw [hred]

/-- C10: in every state reachable from the initial state by any sequence
of user actions, the portfolio key list is exactly the fixed eight-ticker
universe; no operation adds or removes a key, so a position sold down to 0
keeps its entry and a buy never creates a new one. -/
theorem portfolio_keys_fixed (ops : List Op) :
    ((applyOps initSessionState ops).portfolio).map Prod.fst = available_stocks := by
  have hinit : (initSessionState.portfolio).map Prod.fst = available_stocks := by
    show ((available_stocks.map (fun stock => (stock, 0))).map Prod.fst) = available_stocks
    rw [List.map_map]
    have hcomp : (Prod.fst ∘ fun stock : String => (stock, (0 : ℤ))) = id := rfl
    rw [hcomp, List.map_id]
  have hgen : ∀ (s : SessionState), ((applyOps s ops).portfolio).map Prod.fst =
      s.portfolio.map Prod.fst := by
    induction ops with
    | nil => intro s; rfl
    | cons op ops ih =>
      intro s
      show ((applyOps (applyOp s op) ops).portfolio).map Prod.fst = _
      rw [ih (applyOp s op), applyOp_keys]
  rw [hgen initSessionState, hinit]

/-- A rejected order leaves the whole session state untouched. -/
theorem applyOp_of_error (s : SessionState) (side : Side) (ticker : String)
    (quantity : ℤ) (price : ℚ) (feed : String → ℚ) (err : TradeError)
    (h : executeOrder s side ticker quantity price feed = Except.error err) :
    applyOp s (Op.trade side ticker quantity price feed) = s := by
  simp [applyOp, h]

/-- C4: a successful order appends exactly one transaction record, whose
total is quantity times price, and exactly one performance sample valued
by the current feed quotes over the post-trade ledger state; a rejected
order appends nothing, so the log grows by 1 per success and 0 per
rejection. -/
theorem log_effects (s : SessionState) (side : Side) (ticker : String) (quantity : ℤ)
    (price : ℚ) (feed : String → ℚ) :
    (∀ s2, executeOrder s side ticker quantity price feed = Except.ok s2 →
        s2.transaction_history = s.transaction_history ++
          [{ stock := ticker, side := side, quantity := quantity, price := price,
             total := (quantity : ℚ) * price }] ∧
        s2.transaction_history.length = s.transaction_history.length + 1 ∧
        s2.performance = s.performance ++ [total_value s2.portfolio s2.cash_balance feed] ∧
        s2.performance.length = s.performance.length + 1)
  ∧ (∀ err, executeOrder s side ticker quantity price feed = Except.error err →
      applyOp s (Op.trade side ticker quantity price feed) = s) := by
  constructor
  · intro s2 h
    cases side with
    | buy =>
      by_cases hc : (quantity : ℚ) * price ≤ s.cash_balance
      · have hred : executeOrder s Side.buy ticker quantity price feed =
            Except.ok (recordTrade
              { s with portfolio := portfolioAdd s.portfolio ticker quantity
                       cash_balance := s.cash_balance - (quantity : ℚ) * price }
              Side.buy ticker quantity price feed) := by
          show (if (quantity : ℚ) * price ≤ s.cash_balance then _ else _) = _
          rw [if_pos hc]
        rw [hred] at h
        injection h with h2
        rw [← h2]
        refine ⟨rfl, ?_, rfl, ?_⟩ <;> simp [recordTrade]
      · have hred : executeOrder s Side.buy ticker quantity price feed =
            Except.error TradeError.insufficientFunds := by
          show (if (quantity : ℚ) * price ≤ s.cash_balance then _ else _) = _
          rw [if_neg hc]
        rw [hred] at h
        simp at h
    | sell =>
      by_cases hc : quantity ≤ portfolioGet s.portfolio ticker
      · have hred : executeOrder s Side.sell ticker quantity price feed =
            Except.ok (recordTrade
              { s with portfolio := portfolioAdd s.portfolio ticker (-quantity)
                       cash_balance := s.cash_balance + (quantity : ℚ) * price }
              Side.sell ticker quantity price feed) := by
          show (if quantity ≤ portfolioGet s.portfolio ticker then _ else _) = _
          rw [if_pos hc]
        rw [hred] at h
        injection h with h2
        rw [← h2]
        refine ⟨rfl, ?_, rfl, ?_⟩ <;> simp [recordTrade]
      · have hred : executeOrder s Side.sell ticker quantity price feed =
            Except.error TradeError.insufficientShares := by
          show (if quantity ≤ portfolioGet s.portfolio ticker then _ else _) = _
          rw [if_neg hc]
        rw [hred] at h
        simp at h
  · intro err h
    exact applyOp_of_error s side ticker quantity price feed err h

/-- C4 witness: from the initial state, the successful buy of 2 AAPL at
100 logs exactly one transaction and one performance sample. -/
theorem log_effects_scenario :
    ∃ s2, executeOrder initSessionState Side.buy ("AAPL") 2 100 (fun _ => 100) =
        Except.ok s2 ∧
      s2.transaction_history.length = 1 ∧ s2.performance.length = 1 := by
  have hc : ((2 : ℤ) : ℚ) * 100 ≤ initSessionState.cash_balance := by
    norm_num [initSessionState, initial_balance]
  have hok : executeOrder initSessionState Side.buy ("AAPL") 2 100 (fun _ => 100) =
      Except.ok (recordTrade
        { initSessionState with
            portfolio := portfolioAdd initSessionState.portfolio ("AAPL") 2
            cash_balance := initSessionState.cash_balance - ((2 : ℤ) : ℚ) * 100 }
        Side.buy ("AAPL") 2 100 (fun _ => 100)) := by
    show (if ((2 : ℤ) : ℚ) * 100 ≤ initSessionState.cash_balance then _ else _) = _
    rw [if_pos hc]
  have h := (log_effects initSessionState Side.buy ("AAPL") 2 100 (fun _ => 100)).1 _ hok
  refine ⟨_, hok, ?_, ?_⟩
  · rw [h.2.1]
    rfl
  · rw [h.2.2.2]
    rfl

/-- C9: a wallet top-up with an identifier shorter than 8 characters is
rejected and mutates nothing; with an identifier of length at least 8 and
an amount in [20,50] (the range the number widget enforces) the cash
balance is credited by exactly the amount squared and nothing else
changes. -/
theorem load_money_contract (s : SessionState) (transaction_id : String) (amount : ℤ) :
    (transaction_id.length < 8 → load_money s transaction_id amount = s)
  ∧ (8 ≤ transaction_id.length → 20 ≤ amount → amount ≤ 50 →
      (load_money s transaction_id amount).cash_balance =
        s.cash_balance + ((amount * amount : ℤ) : ℚ) ∧
      (load_money s transaction_id amount).portfolio = s.portfolio ∧
      (load_money s transaction_id amount).transaction_history = s.transaction_history ∧
      (load_money s transaction_id amount).performance = s.performance) := by
  constructor
  · intro hshort
    unfold load_money
    rw [if_neg (by omega)]
  · intro hlong _ _
    unfold load_money
    rw [if_pos hlong]
    exact ⟨rfl, rfl, rfl, rfl⟩

/-- C9 witness: a 7-character identifier is rejected with cash unchanged,
and an 8-character identifier with amount 20 credits exactly 400. -/
theorem load_money_contract_scenario :
    load_money initSessionState ("1234567") 20 = initSessionState ∧
    (load_money initSessionState ("12345678") 20).cash_balance =
      initSessionState.cash_balance + 400 := by
  constructor
  · exact (load_money_contract initSessionState ("1234567") 20).1 (by decide)
  · have h := ((load_money_contract initSessionState ("12345678") 20).2
      (by decide) (by decide) (by decide)).1
    rw [h]
    norm_num

/-- Portfolio diversification of trade.py line 117: each available stock
is mapped to its value divided by the total portfolio value (which
includes the cash balance); the division is unconditional, with no guard
on a zero total. -/
def diversification (p : List (String × ℤ)) (cash : ℚ) (feed : String → ℚ) :
    List (String × ℚ) :=
  available_stocks.map (fun stock =>
    (stock, (portfolioGet p stock : ℚ) * feed stock / total_value p cash feed))

theorem portfolioGet_init (t : String) : portfolioGet initSessionState.portfolio t = 0 := by
  unfold portfolioGet
  match h : initSessionState.portfolio.find? (fun e => e.1 == t) with
  | some e =>
    rw [h]
    show e.2 = 0
    have he : e ∈ initSessionState.portfolio := List.mem_of_find?_eq_some h
    rcases List.mem_map.mp he with ⟨stock, _, hEq⟩
    rw [← hEq]
  | none =>
    rw [h]

theorem listSum_map_zero (l : List String) : (l.map (fun _ => (0 : ℚ))).sum = 0 := by
  induction l with
  | nil => rfl
  | cons a l ih => simp [ih]

theorem sum_map_div (l : List ℚ) (c : ℚ) : (l.map (fun x => x / c)).sum = l.sum / c := by
  induction l with
  | nil => simp
  | cons a l ih => simp [ih, add_div]

/-- C5 counterexample: in the initial state (cash 1000, all positions 0,
every quote 100) the total value is positive yet the diversification
proportions sum to 0, not 1, because the divisor includes the cash
balance while no cash entry is among the proportions. -/
theorem diversification_sum_counterexample :
    0 < total_value initSessionState.portfolio initSessionState.cash_balance (fun _ => 100) ∧
    ((diversification initSessionState.portfolio initSessionState.cash_balance
        (fun _ => 100)).map Prod.snd).sum ≠ 1 := by
  have htv : total_value initSessionState.portfolio initSessionState.cash_balance
      (fun _ => 100) = 1000 := by
    unfold total_value
    have hmap : available_stocks.map
        (fun stock => (portfolioGet initSessionState.portfolio stock : ℚ) * 100) =
        available_stocks.map (fun _ => (0 : ℚ)) := by
      refine List.map_congr_left ?_
      intro stock _
      rw [portfolioGet_init]
      norm_num
    rw [hmap, listSum_map_zero]
    norm_num [initSessionState, initial_balance]
  constructor
  · rw [htv]
    norm_num
  · have hmap2 : (diversification initSessionState.portfolio initSessionState.cash_balance
        (fun _ => 100)).map Prod.snd = available_stocks.map (fun _ => (0 : ℚ)) := by
      unfold diversification
      rw [List.map_map]
      refine List.map_congr_left ?_
      intro stock _
      show (portfolioGet initSessionState.portfolio stock : ℚ) * 100 /
        total_value initSessionState.portfolio initSessionState.cash_balance (fun _ => 100) = 0
      rw [portfolioGet_init]
      norm_num
    rw [hmap2, listSum_map_zero]
    norm_num

/-- C5 amended: each ticker's proportion equals quantity times price over
total_value, but the proportions sum to (total_value - cash_balance) /
total_value, which equals 1 exactly when the cash balance is 0; the code
divides unconditionally, with no guard for total_value equal to 0. -/
theorem diversification_sum_amended (p : List (String × ℤ)) (cash : ℚ) (feed : String → ℚ)
    (h : 0 < total_value p cash feed) :
    (∀ e ∈ diversification p cash feed,
        e.2 = (portfolioGet p e.1 : ℚ) * feed e.1 / total_value p cash feed)
  ∧ ((diversification p cash feed).map Prod.snd).sum =
      (total_value p cash feed - cash) / total_value p cash feed := by
  constructor
  · intro e he
    rcases List.mem_map.mp he with ⟨stock, _, hEq⟩
    rw [← hEq]
  · show ((available_stocks.map (fun stock =>
      (stock, (portfolioGet p stock : ℚ) * feed stock / total_value p cash feed))).map
        Prod.snd).sum = _
    rw [List.map_map]
    have hcomp : (Prod.snd ∘ fun stock =>
        (stock, (portfolioGet p stock : ℚ) * feed stock / total_value p cash feed)) =
        fun stock => (portfolioGet p stock : ℚ) * feed stock / total_value p cash feed := rfl
    rw [hcomp]
    have h1 : available_stocks.map
        (fun stock => (portfolioGet p stock : ℚ) * feed stock / total_value p cash feed) =
        (available_stocks.map (fun stock => (portfolioGet p stock : ℚ) * feed stock)).map
          (fun x => x / total_value p cash feed) := by
      rw [List.map_map]
      rfl
    rw [h1, sum_map_div]
    congr 1
    show _ = total_value p cash feed - cash
    unfold total_value
    ring

/-- C5 amended witness: in the initial state with every quote 100 the
total value 1000 is positive and the proportions sum to
(1000 - 1000) / 1000 = 0. -/
theorem diversification_sum_amended_scenario :
    0 < total_value initSessionState.portfolio initSessionState.cash_balance (fun _ => 100) ∧
    ((diversification initSessionState.portfolio initSessionState.cash_balance
        (fun _ => 100)).map Prod.snd).sum =
      (total_value initSessionState.portfolio initSessionState.cash_balance (fun _ => 100) -
          initSessionState.cash_balance) /
        total_value initSessionState.portfolio initSessionState.cash_balance (fun _ => 100) := by
  have htv : total_value initSessionState.portfolio initSessionState.cash_balance
      (fun _ => 100) = 1000 := by
    unfold total_value
    have hmap : available_stocks.map
        (fun stock => (portfolioGet initSessionState.portfolio stock : ℚ) * 100) =
        available_stocks.map (fun _ => (0 : ℚ)) := by
      refine List.map_congr_left ?_
      intro stock _
      rw [portfolioGet_init]
      norm_num
    rw [hmap, listSum_map_zero]
    norm_num [initSessionState, initial_balance]
  have hpos : 0 < total_value initSessionState.portfolio initSessionState.cash_balance
      (fun _ => 100) := by
    rw [htv]
    norm_num
  exact ⟨hpos, (diversification_sum_amended initSessionState.portfolio
    initSessionState.cash_balance (fun _ => 100) hpos).2⟩

/-- The price fetch of trade.py lines 28-30: the first entry of the Close
column of the 1d history; indexing an empty history raises, modelled as
none. -/
def fetch_stock_price (history : String → List ℚ) (ticker : String) : Option ℚ :=
  (history ticker).head?

/-- The generator sum of trade.py line 113 over a list of stocks: Python
evaluates left to right and the first missing price raises out of the
whole sum, modelled as none. -/
def sum_holdings (p : List (String × ℤ)) (history : String → List ℚ) :
    List String → Option ℚ
  | [] => some 0
  | stock :: rest =>
    match fetch_stock_price history stock with
    | none => none
    | some pr => (sum_holdings p history rest).map
        (fun r => (portfolioGet p stock : ℚ) * pr + r)

/-- Total portfolio value of trade.py lines 113-114 against the fallible
feed: any available ticker without a price aborts the whole computation. -/
def total_value_feed (p : List (String × ℤ)) (cash : ℚ)
    (history : String → List ℚ) : Option ℚ :=
  (sum_holdings p history available_stocks).map (fun v => v + cash)

/-- Modelled from the spec: the claimed tolerant valuation in which a
missing feed price is substituted by 0 so that the valuation of all other
tickers always completes. -/
def total_value_tolerant (p : List (String × ℤ)) (cash : ℚ)
    (history : String → List ℚ) : ℚ :=
  (available_stocks.map (fun stock =>
    (portfolioGet p stock : ℚ) * ((fetch_stock_price history stock).getD 0))).sum + cash

theorem sum_holdings_some (p : List (String × ℤ)) (history : String → List ℚ)
    (l : List String) (h : ∀ t ∈ l, history t ≠ []) :
    sum_holdings p history l =
      some ((l.map (fun stock =>
        (portfolioGet p stock : ℚ) * (history stock).headD 0)).sum) := by
  induction l with
  | nil => rfl
  | cons stock rest ih =>
    have hs := h stock (List.mem_cons_self stock rest)
    have hfetch : fetch_stock_price history stock = some ((history stock).headD 0) := by
      unfold fetch_stock_price
      cases hh : history stock with
      | nil => exact absurd hh hs
      | cons x xs => rfl
    show (match fetch_stock_price history stock with
      | none => none
      | some pr => (sum_holdings p history rest).map
          (fun r => (portfolioGet p stock : ℚ) * pr + r)) = _
    rw [hfetch, ih (fun t ht => h t (List.mem_cons_of_mem stock ht))]
    rw [List.map_cons, List.sum_cons]
    rfl

theorem sum_holdings_none (p : List (String × ℤ)) (history : String → List ℚ)
    (l : List String) (h : ∃ t ∈ l, history t = []) :
    sum_holdings p history l = none := by
  induction l with
  | nil => simp at h
  | cons stock rest ih =>
    show (match fetch_stock_price history stock with
      | none => none
      | some pr => (sum_holdings p history rest).map
          (fun r => (portfolioGet p stock : ℚ) * pr + r)) = none
    rcases h with ⟨t, ht, hemp⟩
    rcases List.mem_cons.mp ht with hEq | ht2
    · have hfetch : fetch_stock_price history stock = none := by
        unfold fetch_stock_price
        rw [← hEq, hemp]
        rfl
      rw [hfetch]
    · cases hf : fetch_stock_price history stock with
      | none => rfl
      | some pr =>
        rw [ih ⟨t, ht2, hemp⟩]
        rfl

/-- C6 counterexample: with an empty AAPL history (a failing feed for one
ticker) and the initial portfolio, the computed total value is none (the
exception propagates) rather than the tolerant value 1000 that the claim
promises by treating the missing price as 0. -/
theorem valuation_tolerance_counterexample :
    total_value_feed initSessionState.portfolio initSessionState.cash_balance
      (fun t => if t == "AAPL" then [] else [100]) = none ∧
    total_value_tolerant initSessionState.portfolio initSessionState.cash_balance
      (fun t => if t == "AAPL" then [] else [100]) = 1000 := by
  constructor
  · rfl
  · unfold total_value_tolerant
    have hmap : available_stocks.map (fun stock =>
        (portfolioGet initSessionState.portfolio stock : ℚ) *
          ((fetch_stock_price (fun t => if t == "AAPL" then [] else [100]) stock).getD 0)) =
        available_stocks.map (fun _ => (0 : ℚ)) := by
      refine List.map_congr_left ?_
      intro stock _
      rw [portfolioGet_init]
      norm_num
    rw [hmap, listSum_map_zero]
    norm_num [initSessionState, initial_balance]

/-- C6 amended: when the feed has a price for every available ticker the
total value equals cash plus the sum of quantity times head price; but
when any available ticker's history is empty the whole computation fails
(the indexing exception propagates) instead of valuing the other tickers
with a 0 substitute. -/
theorem valuation_feed_amended (p : List (String × ℤ)) (cash : ℚ)
    (history : String → List ℚ) :
    ((∀ t ∈ available_stocks, history t ≠ []) →
      total_value_feed p cash history =
        some (total_value p cash (fun t => (history t).headD 0)))
  ∧ ((∃ t ∈ available_stocks, history t = []) →
      total_value_feed p cash history = none) := by
  constructor
  · intro hall
    unfold total_value_feed
    rw [sum_holdings_some p history available_stocks hall]
    rfl
  · intro hex
    unfold total_value_feed
    rw [sum_holdings_none p history available_stocks hex]
    rfl

/-- C6 amended witness: with every history equal to [100] the valuation
completes, and with an empty AAPL history it is none. -/
theorem valuation_feed_amended_scenario :
    total_value_feed initSessionState.portfolio initSessionState.cash_balance
        (fun _ => [100]) =
      some (total_value initSessionState.portfolio initSessionState.cash_balance
        (fun t => (([100] : List ℚ)).headD 0)) ∧
    total_value_feed initSessionState.portfolio initSessionState.cash_balance
      (fun t => if t == "AAPL" then [] else [100]) = none := by
  constructor
  · exact (valuation_feed_amended initSessionState.portfolio
      initSessionState.cash_balance (fun _ => [100])).1 (by intro t _; simp)
  · exact (valuation_feed_amended initSessionState.portfolio
      initSessionState.cash_balance (fun t => if t == "AAPL" then [] else [100])).2
      ⟨"AAPL", by decide, by rfl⟩

/-! Risk metrics of the Analytics tab. -/

/-- Arithmetic mean of a series (division by zero on an empty list is the
rational junk value 0). -/
def listMean (l : List ℚ) : ℚ := l.sum / (l.length : ℚ)

/-- Entry [0,1] of np.cov(x, y) with the default normalization by
length - 1. -/
def covMatrix01 (x y : List ℚ) : ℚ :=
  ((x.zip y).map (fun rr => (rr.1 - listMean x) * (rr.2 - listMean y))).sum /
    ((x.length : ℚ) - 1)

/-- np.var with the default normalization by length. -/
def varP (l : List ℚ) : ℚ :=
  (l.map (fun v => (v - listMean l) ^ 2)).sum / (l.length : ℚ)

/-- The Beta entry of trade.py line 182: np.cov(returns, returns)[0, 1]
divided by np.var(returns); the asset's own return series stands on both
sides of the covariance and the benchmark never enters the formula. -/
def beta (returns : List ℚ) : ℚ := covMatrix01 returns returns / varP returns

/-- Population covariance of two aligned series. -/
def covP (x y : List ℚ) : ℚ :=
  ((x.zip y).map (fun rr => (rr.1 - listMean x) * (rr.2 - listMean y))).sum /
    ((x.length : ℚ))

/-- Modelled from the spec: beta of an asset return series r against a
benchmark return series b (aligned by timestamp), Cov(r,b)/Var(b). -/
def beta_benchmark (r b : List ℚ) : ℚ := covP r b / varP b

/-- C7: the code's beta of the asset return series [1, 5] is 2 (as it is
for the unrelated series [10, 30]: it is length/(length-1) whatever the
data), while the specified Cov(R,B)/Var(B) against the aligned benchmark
return series [1, 2] is 4: the code ignores the benchmark and correlates
the series with itself. -/
theorem beta_ignores_benchmark_value :
    beta [1, 5] = 2 ∧ beta [10, 30] = 2 ∧ beta_benchmark [1, 5] [1, 2] = 4 := by
  refine ⟨?_, ?_, ?_⟩ <;>
    norm_num [beta, beta_benchmark, covMatrix01, covP, varP, listMean]

/-! RSI (trade.py lines 42-48), over a Close price series.  Pandas cells
are modelled explicitly: a missing value (NaN) and the infinities that
float division by zero produces. -/

/-- A pandas float cell in the RSI pipeline: NaN, a signed infinity, or a
finite value. -/
inductive PF
| nan
| inf
| neginf
| val (q : ℚ)
deriving DecidableEq

/-- data.diff(): an undefined first entry, then consecutive differences. -/
def diffSeries : List ℚ → List (Option ℚ)
  | [] => []
  | x :: rest => none :: List.zipWith (fun cur prev => some (cur - prev)) rest (x :: rest)

/-- delta.where(delta > 0, 0): keep a delta where it is positive,
otherwise 0; the comparison of the undefined first delta is False, so it
also becomes 0. -/
def gainsOf (deltas : List (Option ℚ)) : List ℚ :=
  deltas.map (fun d => match d with
    | some x => if 0 < x then x else 0
    | none => 0)

/-- -delta.where(delta < 0, 0): keep a delta where it is negative,
otherwise 0, then negate. -/
def lossesOf (deltas : List (Option ℚ)) : List ℚ :=
  deltas.map (fun d => match d with
    | some x => if x < 0 then -x else 0
    | none => 0)

/-- Series.rolling(window).mean(): undefined until a full window of
observations is available, then the mean of the last window values. -/
def rollingMean (window : ℕ) (l : List ℚ) : List (Option ℚ) :=
  (List.range l.length).map (fun i =>
    if window ≤ i + 1 then
      some ((((l.take (i + 1)).drop (i + 1 - window)).sum) / (window : ℚ))
    else none)

/-- Elementwise gain/loss division with the float conventions pandas
applies: a missing operand gives NaN, x/0 is NaN when x = 0 and a signed
infinity otherwise. -/
def divPF : Option ℚ → Option ℚ → PF
  | some x, some y =>
      if y = 0 then (if x = 0 then PF.nan else if 0 < x then PF.inf else PF.neginf)
      else PF.val (x / y)
  | _, _ => PF.nan

/-- One cell of 100 - (100 / (1 + rs)) under float arithmetic: an
infinite rs gives exactly 100, NaN propagates, and rs = -1 divides by
zero towards minus infinity. -/
def rsiOf : PF → PF
  | PF.nan => PF.nan
  | PF.inf => PF.val 100
  | PF.neginf => PF.val 100
  | PF.val q => if 1 + q = 0 then PF.neginf else PF.val (100 - 100 / (1 + q))

/-- calculate_rsi of trade.py lines 42-48. -/
def calculate_rsi (data : List ℚ) (window : ℕ) : List PF :=
  let delta := diffSeries data
  let gain := rollingMean window (gainsOf delta)
  let loss := rollingMean window (lossesOf delta)
  List.zipWith (fun g l => rsiOf (divPF g l)) gain loss

theorem length_diffSeries (data : List ℚ) : (diffSeries data).length = data.length := by
  cases data with
  | nil => rfl
  | cons x rest =>
    show (none :: List.zipWith (fun cur prev => some (cur - prev)) rest (x :: rest)).length =
      (x :: rest).length
    rw [List.length_cons, List.length_zipWith, List.length_cons]
    omega

theorem length_gainsOf (deltas : List (Option ℚ)) : (gainsOf deltas).length = deltas.length :=
  List.length_map deltas _

theorem length_lossesOf (deltas : List (Option ℚ)) : (lossesOf deltas).length = deltas.length :=
  List.length_map deltas _

theorem rollingMean_getElem? (window : ℕ) (l : List ℚ) (i : ℕ) (hi : i < l.length) :
    (rollingMean window l)[i]? =
      some (if window ≤ i + 1 then
        some ((((l.take (i + 1)).drop (i + 1 - window)).sum) / (window : ℚ))
      else none) := by
  unfold rollingMean
  rw [List.getElem?_map, List.getElem?_range hi]
  rfl

theorem zipWith_getElem?_some {α β γ : Type} (f : α → β → γ) :
    ∀ (as : List α) (bs : List β) (i : ℕ) (a : α) (b : β),
      as[i]? = some a → bs[i]? = some b → (List.zipWith f as bs)[i]? = some (f a b)
  | [], _, i, _, _, ha, _ => by simp at ha
  | _ :: _, [], i, _, _, _, hb => by simp at hb
  | a0 :: as, b0 :: bs, 0, a, b, ha, hb => by
    simp only [List.getElem?_cons_zero, Option.some.injEq] at ha hb
    rw [List.zipWith_cons_cons]
    simp [ha, hb]
  | a0 :: as, b0 :: bs, i + 1, a, b, ha, hb => by
    rw [List.zipWith_cons_cons]
    simp only [List.getElem?_cons_succ] at ha hb ⊢
    exact zipWith_getElem?_some f as bs i a b ha hb

theorem diff_zip_pos (x : ℚ) (rest : List ℚ)
    (hp : List.Pairwise (fun a b => a < b) (x :: rest)) :
    ∀ d ∈ List.zipWith (fun cur prev => some (cur - prev)) rest (x :: rest),
      ∀ δ : ℚ, d = some δ → 0 < δ := by
  induction rest generalizing x with
  | nil =>
    intro d hd
    simp at hd
  | cons y rest ih =>
    intro d hd δ hδ
    rw [List.zipWith_cons_cons] at hd
    rcases List.mem_cons.mp hd with hEq | hmem
    · rw [hEq] at hδ
      injection hδ with h2
      have hxy : x < y := (List.pairwise_cons.mp hp).1 y (List.mem_cons_self y rest)
      rw [← h2]
      linarith
    · exact ih y (List.pairwise_cons.mp hp).2 d hmem δ hδ

theorem diffSeries_pos (data : List ℚ) (hp : List.Pairwise (fun a b => a < b) data) :
    ∀ d ∈ diffSeries data, ∀ δ : ℚ, d = some δ → 0 < δ := by
  cases data with
  | nil =>
    intro d hd
    simp [diffSeries] at hd
  | cons x rest =>
    intro d hd δ hδ
    rcases List.mem_cons.mp hd with hEq | hmem
    · rw [hEq] at hδ
      cases hδ
    · exact diff_zip_pos x rest hp d hmem δ hδ

theorem gainsOf_nonneg (deltas : List (Option ℚ)) : ∀ x ∈ gainsOf deltas, 0 ≤ x := by
  intro x hx
  rcases List.mem_map.mp hx with ⟨d, _, hEq⟩
  rw [← hEq]
  cases d with
  | none => norm_num
  | some v =>
    show (0 : ℚ) ≤ if 0 < v then v else 0
    split
    · linarith
    · norm_num

theorem lossesOf_diff_zero (data : List ℚ)
    (hp : List.Pairwise (fun a b => a < b) data) :
    ∀ x ∈ lossesOf (diffSeries data), x = 0 := by
  intro x hx
  rcases List.mem_map.mp hx with ⟨d, hd, hEq⟩
  rw [← hEq]
  cases d with
  | none => rfl
  | some v =>
    have hv : 0 < v := diffSeries_pos data hp (some v) hd v rfl
    show (if v < 0 then -v else 0) = 0
    rw [if_neg (by linarith)]

theorem diffSeries_getElem?_pos (data : List ℚ)
    (hp : List.Pairwise (fun a b => a < b) data) (i : ℕ) (h1 : 1 ≤ i)
    (h2 : i < data.length) :
    ∃ δ : ℚ, (diffSeries data)[i]? = some (some δ) ∧ 0 < δ := by
  cases data with
  | nil => simp at h2
  | cons x rest =>
    obtain ⟨j, rfl⟩ : ∃ j, i = j + 1 := ⟨i - 1, by omega⟩
    have hj : j < rest.length := by
      rw [List.length_cons] at h2
      omega
    have hj2 : j < (x :: rest).length := by
      rw [List.length_cons]
      omega
    have ha : rest[j]? = some rest[j] := List.getElem?_eq_getElem hj
    have hb : (x :: rest)[j]? = some ((x :: rest)[j]) := List.getElem?_eq_getElem hj2
    have hz := zipWith_getElem?_some (fun cur prev => some (cur - prev))
      rest (x :: rest) j _ _ ha hb
    refine ⟨rest[j] - (x :: rest)[j], ?_, ?_⟩
    · show (none :: List.zipWith (fun cur prev => some (cur - prev)) rest (x :: rest))[j + 1]? =
        some (some (rest[j] - (x :: rest)[j]))
      rw [List.getElem?_cons_succ]
      exact hz
    · have hmem : some (rest[j] - (x :: rest)[j]) ∈
          List.zipWith (fun cur prev => some (cur - prev)) rest (x :: rest) :=
        List.getElem?_mem hz
      exact diff_zip_pos x rest hp _ hmem _ rfl

theorem gains_getElem?_pos (data : List ℚ)
    (hp : List.Pairwise (fun a b => a < b) data) (i : ℕ) (h1 : 1 ≤ i)
    (h2 : i < data.length) :
    ∃ v : ℚ, (gainsOf (diffSeries data))[i]? = some v ∧ 0 < v := by
  obtain ⟨δ, hδ, hpos⟩ := diffSeries_getElem?_pos data hp i h1 h2
  refine ⟨δ, ?_, hpos⟩
  unfold gainsOf
  rw [List.getElem?_map, hδ]
  show some (if 0 < δ then δ else 0) = some δ
  rw [if_pos hpos]

theorem window_sum_zero (l : List ℚ) (i w : ℕ) (hz : ∀ x ∈ l, x = 0) :
    ((l.take (i + 1)).drop (i + 1 - w)).sum = 0 :=
  List.sum_eq_zero (fun x hx => hz x (List.mem_of_mem_take (List.mem_of_mem_drop hx)))

theorem window_sum_pos (g : List ℚ) (w i : ℕ) (hw : 1 ≤ w) (hwi : w ≤ i + 1)
    (hnn : ∀ x ∈ g, 0 ≤ x) (v : ℚ) (hv : g[i]? = some v) (hvpos : 0 < v) :
    0 < ((g.take (i + 1)).drop (i + 1 - w)).sum := by
  have hWa : ((g.take (i + 1)).drop (i + 1 - w))[w - 1]? = g[i]? := by
    rw [List.getElem?_drop, List.getElem?_take]
    rw [if_pos (by omega)]
    congr 1
    omega
  have hmemW : v ∈ (g.take (i + 1)).drop (i + 1 - w) := by
    have hWv : ((g.take (i + 1)).drop (i + 1 - w))[w - 1]? = some v := by
      rw [hWa, hv]
    exact List.getElem?_mem hWv
  have hle : v ≤ ((g.take (i + 1)).drop (i + 1 - w)).sum :=
    List.single_le_sum
      (fun x hx => hnn x (List.mem_of_mem_take (List.mem_of_mem_drop hx))) v hmemW
  linarith

theorem calculate_rsi_getElem?_nan (data : List ℚ) (window i : ℕ)
    (hi : i < data.length) (hlt : i + 1 < window) :
    (calculate_rsi data window)[i]? = some PF.nan := by
  have hig : i < (gainsOf (diffSeries data)).length := by
    rw [length_gainsOf, length_diffSeries]
    exact hi
  have hil : i < (lossesOf (diffSeries data)).length := by
    rw [length_lossesOf, length_diffSeries]
    exact hi
  have hg : (rollingMean window (gainsOf (diffSeries data)))[i]? = some none := by
    rw [rollingMean_getElem? window _ i hig, if_neg (by omega)]
  have hl : (rollingMean window (lossesOf (diffSeries data)))[i]? = some none := by
    rw [rollingMean_getElem? window _ i hil, if_neg (by omega)]
  show (List.zipWith (fun g l => rsiOf (divPF g l))
    (rollingMean window (gainsOf (diffSeries data)))
    (rollingMean window (lossesOf (diffSeries data))))[i]? = some PF.nan
  exact zipWith_getElem?_some _ _ _ i none none hg hl

theorem calculate_rsi_getElem?_hundred (data : List ℚ) (window i : ℕ)
    (hp : List.Pairwise (fun a b => a < b) data)
    (hw : 1 ≤ window) (hwi : window ≤ i + 1) (h1 : 1 ≤ i) (hi : i < data.length) :
    (calculate_rsi data window)[i]? = some (PF.val 100) ∧
    (rollingMean window (lossesOf (diffSeries data)))[i]? = some (some 0) := by
  have hig : i < (gainsOf (diffSeries data)).length := by
    rw [length_gainsOf, length_diffSeries]
    exact hi
  have hil : i < (lossesOf (diffSeries data)).length := by
    rw [length_lossesOf, length_diffSeries]
    exact hi
  have hlossSum : (((lossesOf (diffSeries data)).take (i + 1)).drop (i + 1 - window)).sum
      = 0 := window_sum_zero _ i window (lossesOf_diff_zero data hp)
  have hl : (rollingMean window (lossesOf (diffSeries data)))[i]? = some (some 0) := by
    rw [rollingMean_getElem? window _ i hil, if_pos hwi, hlossSum]
    rw [zero_div]
  obtain ⟨v, hv, hvpos⟩ := gains_getElem?_pos data hp i h1 hi
  have hgainpos : 0 < (((gainsOf (diffSeries data)).take (i + 1)).drop
      (i + 1 - window)).sum :=
    window_sum_pos _ window i hw hwi (gainsOf_nonneg _) v hv hvpos
  have hg : (rollingMean window (gainsOf (diffSeries data)))[i]? =
      some (some ((((gainsOf (diffSeries data)).take (i + 1)).drop
        (i + 1 - window)).sum / (window : ℚ))) := by
    rw [rollingMean_getElem? window _ i hig, if_pos hwi]
  refine ⟨?_, hl⟩
  have hwq : (0 : ℚ) < (window : ℚ) := by
    exact_mod_cast hw
  have hquot : 0 < (((gainsOf (diffSeries data)).take (i + 1)).drop
      (i + 1 - window)).sum / (window : ℚ) := div_pos hgainpos hwq
  have hdiv : divPF
      (some ((((gainsOf (diffSeries data)).take (i + 1)).drop
        (i + 1 - window)).sum / (window : ℚ))) (some 0) = PF.inf := by
    show (if (0 : ℚ) = 0 then
        (if (((gainsOf (diffSeries data)).take (i + 1)).drop
            (i + 1 - window)).sum / (window : ℚ) = 0 then PF.nan
         else if 0 < (((gainsOf (diffSeries data)).take (i + 1)).drop
            (i + 1 - window)).sum / (window : ℚ) then PF.inf else PF.neginf)
      else PF.val ((((gainsOf (diffSeries data)).take (i + 1)).drop
        (i + 1 - window)).sum / (window : ℚ) / 0)) = PF.inf
    rw [if_pos rfl, if_neg (ne_of_gt hquot), if_pos hquot]
  have hz := zipWith_getElem?_some (fun g l => rsiOf (divPF g l))
    (rollingMean window (gainsOf (diffSeries data)))
    (rollingMean window (lossesOf (diffSeries data))) i _ _ hg hl
  show (List.zipWith (fun g l => rsiOf (divPF g l))
    (rollingMean window (gainsOf (diffSeries data)))
    (rollingMean window (lossesOf (diffSeries data))))[i]? = some (PF.val 100)
  rw [hz]
  show some (rsiOf (divPF
    (some ((((gainsOf (diffSeries data)).take (i + 1)).drop
      (i + 1 - window)).sum / (window : ℚ))) (some 0))) = some (PF.val 100)
  rw [hdiv]
  rfl

theorem pairwise_incr_sample : List.Pairwise (fun a b => a < b)
    ([0, 1, 2, 3, 4, 5, 6, 7, 8, 9, 10, 11, 12, 13, 14] : List ℚ) := by
  norm_num [List.pairwise_cons]

/-- C8 counterexample: for the strictly increasing 15-point price series
0,...,14 with window 14, the RSI entry at index 13 - one of the first 14
points - is the value 100, not a missing value: only the first 13 points
of the RSI series are missing. -/
theorem rsi_window_counterexample :
    (calculate_rsi ([0, 1, 2, 3, 4, 5, 6, 7, 8, 9, 10, 11, 12, 13, 14] : List ℚ)
        14)[13]? = some (PF.val 100) ∧ some (PF.val 100) ≠ some PF.nan := by
  constructor
  · exact (calculate_rsi_getElem?_hundred
      ([0, 1, 2, 3, 4, 5, 6, 7, 8, 9, 10, 11, 12, 13, 14] : List ℚ) 14 13
      pairwise_incr_sample (by omega) (by omega) (by omega) (by simp)).1
  · intro h
    injection h with h2
    cases h2

/-- C8 amended: for every price series only the first window - 1 = 13
entries of the RSI series are missing (the undefined first delta is
replaced by 0 by the where filter, so the window is already full at index
13); and for a strictly increasing series the rolling average loss is 0
and the RSI is exactly 100 at every index from 13 on, handled through the
float division conventions without error or NaN. -/
theorem rsi_amended (data : List ℚ) (i : ℕ) (hi : i < data.length) :
    (i < 13 → (calculate_rsi data 14)[i]? = some PF.nan)
  ∧ (List.Pairwise (fun a b => a < b) data → 13 ≤ i →
      (rollingMean 14 (lossesOf (diffSeries data)))[i]? = some (some 0) ∧
      (calculate_rsi data 14)[i]? = some (PF.val 100)) := by
  constructor
  · intro h13
    exact calculate_rsi_getElem?_nan data 14 i hi (by omega)
  · intro hp h13
    have h := calculate_rsi_getElem?_hundred data 14 i hp (by omega) (by omega)
      (by omega) hi
    exact ⟨h.2, h.1⟩

/-- C8 amended witness: on the series 0,...,14 the RSI entry at index 12
is missing while the entry at index 13 is the value 100 with a zero
average loss. -/
theorem rsi_amended_scenario :
    (calculate_rsi ([0, 1, 2, 3, 4, 5, 6, 7, 8, 9, 10, 11, 12, 13, 14] : List ℚ)
        14)[12]? = some PF.nan ∧
    (rollingMean 14 (lossesOf (diffSeries
        ([0, 1, 2, 3, 4, 5, 6, 7, 8, 9, 10, 11, 12, 13, 14] : List ℚ))))[13]? =
      some (some 0) ∧
    (calculate_rsi ([0, 1, 2, 3, 4, 5, 6, 7, 8, 9, 10, 11, 12, 13, 14] : List ℚ)
        14)[13]? = some (PF.val 100) := by
  refine ⟨?_, ?_, ?_⟩
  · exact (rsi_amended ([0, 1, 2, 3, 4, 5, 6, 7, 8, 9, 10, 11, 12, 13, 14] : List ℚ)
      12 (by simp)).1 (by omega)
  · exact ((rsi_amended ([0, 1, 2, 3, 4, 5, 6, 7, 8, 9, 10, 11, 12, 13, 14] : List ℚ)
      13 (by simp)).2 pairwise_incr_sample (by omega)).1
  · exact ((rsi_amended ([0, 1, 2, 3, 4, 5, 6, 7, 8, 9, 10, 11, 12, 13, 14] : List ℚ)
      13 (by simp)).2 pairwise_incr_sample (by omega)).2
